import Mathlib

/-!
Verification of the process-explorer core of `src/main.rs`.

The program reads `/proc`: for each directory entry whose name parses as a
`u64`, it reads the `cmdline` file (UTF-8, NUL bytes replaced by spaces) and
the `stat` file (parsed into pid, tcomm and a state letter), building a
`Vec<Process>`.  The GUI filters that vector by a substring search over the
decimal pid, the cmdline and the tcomm.

Bytes are modelled as `Nat` (values `< 256`), byte files as `List Nat`,
Rust `String`s as `List Char`, and every `unwrap`/`panic!` as `none` of an
`Option`.
-/

namespace LinuxVisualizer

/-- A byte in the range `0x80 ..= 0xBF`, i.e. a UTF-8 continuation byte. -/
def isCont (b : Nat) : Bool := 128 ≤ b && b ≤ 191

/-- Constraint on the second byte of a 3-byte UTF-8 sequence, given its first
byte, exactly as in Rust's `core::str` validation (`0xE0` and `0xED` are
special-cased to exclude overlong forms and surrogates). -/
def utf8Second3 (b b1 : Nat) : Bool :=
  if b = 224 then 160 ≤ b1 && b1 ≤ 191
  else if b = 237 then 128 ≤ b1 && b1 ≤ 159
  else isCont b1

/-- Constraint on the second byte of a 4-byte UTF-8 sequence, given its first
byte (`0xF0` and `0xF4` special-cased as in Rust's validation). -/
def utf8Second4 (b b1 : Nat) : Bool :=
  if b = 240 then 144 ≤ b1 && b1 ≤ 191
  else if b = 244 then 128 ≤ b1 && b1 ≤ 143
  else isCont b1

/-- One multi-byte UTF-8 decoding step, given a first byte `b > 0x7F` and
the remaining bytes: the decoded character and the rest, or `none` on an
invalid sequence, following Rust's `core::str` validation exactly. -/
def utf8StepMulti (b : Nat) (bs : List Nat) : Option (Char × List Nat) :=
  if 194 ≤ b && b ≤ 223 then
    match bs with
    | b1 :: bs1 =>
      if isCont b1 then some (Char.ofNat ((b - 192) * 64 + (b1 - 128)), bs1)
      else none
    | [] => none
  else if 224 ≤ b && b ≤ 239 then
    match bs with
    | b1 :: b2 :: bs2 =>
      if utf8Second3 b b1 && isCont b2 then
        some (Char.ofNat ((b - 224) * 4096 + (b1 - 128) * 64 + (b2 - 128)), bs2)
      else none
    | _ => none
  else if 240 ≤ b && b ≤ 244 then
    match bs with
    | b1 :: b2 :: b3 :: bs3 =>
      if utf8Second4 b b1 && isCont b2 && isCont b3 then
        some (Char.ofNat
          ((b - 240) * 262144 + (b1 - 128) * 4096 + (b2 - 128) * 64 + (b3 - 128)), bs3)
      else none
    | _ => none
  else none

/-- One UTF-8 decoding step: decode the first scalar value of the byte list
(or `none` if the bytes do not start with a valid sequence). -/
def utf8Step : List Nat → Option (Char × List Nat)
  | [] => none
  | b :: bs => if b ≤ 127 then some (Char.ofNat b, bs) else utf8StepMulti b bs

/-- Fuel-driven UTF-8 decoding loop.  Each step consumes at least one byte
and the fuel decreases by one, so fuel equal to the byte length always
suffices. -/
def decodeUtf8Aux : Nat → List Nat → Option (List Char)
  | _, [] => some []
  | 0, _ :: _ => none
  | fuel + 1, b :: bs =>
    match utf8Step (b :: bs) with
    | none => none
    | some (c, rest) =>
      match decodeUtf8Aux fuel rest with
      | none => none
      | some cs => some (c :: cs)

/-- Strict UTF-8 decoding of a byte list, modelling Rust's
`String::from_utf8`: `some` of the decoded characters on valid input,
`none` (the `unwrap` panic) on any invalid sequence. -/
def decodeUtf8 (bs : List Nat) : Option (List Char) :=
  decodeUtf8Aux bs.length bs

/-- `BufRead::read_until(delim)` on an in-memory cursor: returns the consumed
bytes (up to and including the delimiter, or the whole input if the delimiter
is absent) together with the unread remainder.  It never fails. -/
def readUntil (d : Nat) : List Nat → List Nat × List Nat
  | [] => ([], [])
  | b :: bs =>
    if b = d then ([b], bs)
    else
      let p := readUntil d bs
      (b :: p.1, p.2)

/-- The characters with the Unicode `White_Space` property, as used by Rust's
`str::trim` (via `char::is_whitespace`). -/
def rustIsWhitespace (c : Char) : Bool :=
  c.toNat ∈ [9, 10, 11, 12, 13, 32, 133, 160, 5760,
    8192, 8193, 8194, 8195, 8196, 8197, 8198, 8199, 8200, 8201, 8202,
    8232, 8233, 8239, 8287, 12288]

/-- Rust's `str::trim`: drop whitespace from both ends. -/
def rustTrim (cs : List Char) : List Char :=
  ((cs.dropWhile rustIsWhitespace).reverse.dropWhile rustIsWhitespace).reverse

/-- Rust's `str::parse::<u64>()`: an optional leading `+`, then one or more
ASCII digits, rejecting the empty string and values `≥ 2^64`. -/
def parseU64 (cs : List Char) : Option Nat :=
  let ds := match cs with
    | c :: rest => if c = '+' then rest else cs
    | [] => cs
  if ds.isEmpty then none
  else if ds.all Char.isDigit then
    let n := ds.foldl (fun a c => 10 * a + (c.toNat - 48)) 0
    if n < 18446744073709551616 then some n else none
  else none

/-- Rust's `str::is_char_boundary i`: true at 0, at the byte length, and at
any index holding a non-continuation byte. -/
def isCharBoundary (bs : List Nat) (i : Nat) : Bool :=
  i == 0 ||
    match bs.drop i with
    | [] => i == bs.length
    | b :: _ => !isCont b

/-- Rust's byte-range string slice `s[a..b]` (on the underlying bytes of a
`String`): `some` of the byte slice when `a ≤ b ≤ len` and both ends are
char boundaries, `none` (the slicing panic) otherwise. -/
def strSlice (bs : List Nat) (a b : Nat) : Option (List Nat) :=
  if a ≤ b && b ≤ bs.length && isCharBoundary bs a && isCharBoundary bs b then
    some ((bs.drop a).take (b - a))
  else none

/-- The `ProcessState` enumeration of the source. -/
inductive ProcessState
  | Running
  | Sleeping
  | UninterruptibleSleeping
  | Stopped
  | Zombie
  | Idle
deriving DecidableEq, Repr

/-- The state-byte `match` of `parse_stats` (`src/main.rs:203`), with the
panic on an unknown byte modelled as `none`:
`R`, `S`, `D`, `Z`, `T`, `I` in the order the source lists them. -/
def stateOfByte (b : Nat) : Option ProcessState :=
  if b = 82 then some ProcessState.Running
  else if b = 83 then some ProcessState.Sleeping
  else if b = 68 then some ProcessState.UninterruptibleSleeping
  else if b = 90 then some ProcessState.Zombie
  else if b = 84 then some ProcessState.Stopped
  else if b = 73 then some ProcessState.Idle
  else none

/-- The `Display` impl for `ProcessState` (`src/main.rs:226`). -/
def displayState : ProcessState → String
  | ProcessState.Running => "Running"
  | ProcessState.Sleeping => "Sleeping"
  | ProcessState.UninterruptibleSleeping => "Uninterruptable Sleep"
  | ProcessState.Stopped => "Stopped"
  | ProcessState.Zombie => "Zombie"
  | ProcessState.Idle => "Idle"

/-- The `ProcessStats` struct of the source (`_pid`, `tcomm`, `state`). -/
structure ProcessStats where
  statPid : Nat
  tcomm : List Char
  state : ProcessState
deriving DecidableEq, Repr

/-- `parse_stats` (`src/main.rs:181`) on the raw bytes of a `stat` file, with
every `unwrap`/`panic!` modelled as `none`:
read bytes to the first space and decimal-parse the pid; read bytes to the
first `)` and take the byte-slice `[1 .. len-1]` of that segment as tcomm;
skip to the next space; read one byte and map it through `stateOfByte`. -/
def parseStats (bytes : List Nat) : Option ProcessStats :=
  let pidRead := readUntil 32 bytes
  match decodeUtf8 pidRead.1 with
  | none => none
  | some pidStr =>
    match parseU64 (rustTrim pidStr) with
    | none => none
    | some pid =>
      let tcommRead := readUntil 41 pidRead.2
      match decodeUtf8 tcommRead.1 with
      | none => none
      | some _ =>
        match strSlice tcommRead.1 1 (tcommRead.1.length - 1) with
        | none => none
        | some inner =>
          match decodeUtf8 inner with
          | none => none
          | some tcomm =>
            let skipRead := readUntil 32 tcommRead.2
            match skipRead.2 with
            | [] => none
            | st :: _ =>
              match stateOfByte st with
              | none => none
              | some state => some ⟨pid, tcomm, state⟩

/-- The characters of a Lean string literal, used to write concrete inputs
readably. -/
def strChars (s : String) : List Char := s.data

/-- The bytes of an ASCII Lean string literal (every character of the
concrete inputs below is ASCII, so `Char.toNat` is the byte value). -/
def strBytes (s : String) : List Nat := s.data.map Char.toNat

/-- Fuel-driven decimal digit printer: byte values of the decimal digits of
`n`, most significant first (structural in the fuel so that it computes by
kernel reduction). -/
def digitsOfNatAux : Nat → Nat → List Nat
  | 0, _ => []
  | fuel + 1, n =>
    if n < 10 then [48 + n]
    else digitsOfNatAux fuel (n / 10) ++ [48 + n % 10]

/-- The decimal digit bytes of `n`, most significant first (`0` prints as
`"0"`). -/
def digitsOfNat (n : Nat) : List Nat := digitsOfNatAux (n + 1) n

/-- Rust's `u64::to_string()`: the decimal representation, as characters. -/
def natToChars (n : Nat) : List Char := (digitsOfNat n).map Char.ofNat

/-- Rust's `str::contains(needle)`: substring (contiguous infix) test on the
haystack. -/
def strContains (hay needle : List Char) : Bool := decide (needle <:+: hay)

/-- `ProcessStats::contains` (`src/main.rs:176`): substring search over the
tcomm only. -/
def ProcessStats.containsStr (st : ProcessStats) (w : List Char) : Bool :=
  strContains st.tcomm w

/-- The `Process` struct of the source: pid, space-joined cmdline, stats. -/
structure Process where
  pid : Nat
  cmdline : List Char
  stats : ProcessStats
deriving DecidableEq, Repr

/-- `Process::contains` (`src/main.rs:135`): the needle occurs in the decimal
pid string, the cmdline, or (via `ProcessStats::contains`) the tcomm. -/
def Process.containsStr (p : Process) (w : List Char) : Bool :=
  strContains (natToChars p.pid) w || strContains p.cmdline w ||
    p.stats.containsStr w

/-- The filtering step of `App::update` (`src/main.rs:80`): an empty search
text returns a clone of the whole list, otherwise the list is filtered by
`Process::contains`. -/
def filterProcesses (ps : List Process) (w : List Char) : List Process :=
  if w.isEmpty then ps
  else ps.filter (fun p => p.containsStr w)

/-- The general (non-fast-path) branch of the filter in `App::update`, by
itself: `filter(|p| p.contains(w))`. -/
def filterGeneral (ps : List Process) (w : List Char) : List Process :=
  ps.filter (fun p => p.containsStr w)

/-- One `/proc` directory entry as the snapshot builder sees it: its name,
and the contents of its `cmdline` and `stat` files (`none` = the file is
unreadable). -/
structure ProcEntry where
  name : List Char
  cmdline : Option (List Nat)
  statFile : Option (List Nat)
deriving DecidableEq, Repr

/-- The cmdline handling of `parse_processes` (`src/main.rs:149`):
`read_to_string` (strict UTF-8, `unwrap` = `none`) followed by
`replace('\x00', " ")`. -/
def parseCmdline (bs : List Nat) : Option (List Char) :=
  match decodeUtf8 bs with
  | none => none
  | some cs => some (cs.map (fun c => if c = Char.ofNat 0 then ' ' else c))

/-- NUL-to-space replacement on an already decoded string (the
`replace('\x00', " ")` of `src/main.rs:151`). -/
def replaceNul (cs : List Char) : List Char :=
  cs.map (fun c => if c = Char.ofNat 0 then ' ' else c)

/-- `parse_processes` (`src/main.rs:142`) over a modelled directory listing:
entries whose name does not parse as `u64` are skipped; for a numeric entry
the cmdline file is read and decoded, the stat file is read and parsed, and
any failure — an `unwrap` panic in the source — aborts the whole scan
(`none`). -/
def parseProcesses : List ProcEntry → Option (List Process)
  | [] => some []
  | e :: es =>
    match parseU64 e.name with
    | some pid =>
      match e.cmdline with
      | none => none
      | some cb =>
        match parseCmdline cb with
        | none => none
        | some cmdline =>
          match e.statFile with
          | none => none
          | some sb =>
            match parseStats sb with
            | none => none
            | some stats =>
              match parseProcesses es with
              | none => none
              | some rest => some (⟨pid, cmdline, stats⟩ :: rest)
    | none => parseProcesses es

/-- A synthetic well-formed stat blob `<pid> (<tcomm>) <state> <rest>`:
decimal pid bytes, space, `(`, the tcomm bytes, `)`, space, the state byte,
space, arbitrary trailing bytes. -/
def mkStatBlob (pid : Nat) (tcomm : List Nat) (st : Nat) (rest : List Nat) :
    List Nat :=
  digitsOfNat pid ++ 32 :: 40 :: (tcomm ++ 41 :: 32 :: st :: 32 :: rest)

/-- The stat blob of spec scenario 2 (the last-`)` example). -/
def weirdBlob : List Nat := strBytes ("4242 (weird )name ) R 1 ...")

/-- A stat blob whose tcomm bytes are not valid UTF-8: `5 (\xff) R 1`. -/
def invalidUtf8Blob : List Nat := [53, 32, 40, 255, 41, 32, 82, 32, 49]

/-- The directory entry of spec scenario 4: pid 9 with state byte `Q`. -/
def entryQ : ProcEntry :=
  ⟨strChars ("9"), some (strBytes ("x\x00")), some (strBytes ("9 (x) Q 1 ..."))⟩

/-- A well-formed directory entry with pid 10. -/
def entryTen : ProcEntry :=
  ⟨strChars ("10"), some (strBytes ("y\x00")), some (strBytes ("10 (y) R 1 ..."))⟩

/-- A directory listing holding a numeric entry and a non-numeric one. -/
def demoEntries : List ProcEntry :=
  [⟨strChars ("self"), none, none⟩,
   ⟨strChars ("1"), some (strBytes ("a\x00")), some (strBytes ("1 (a) R 0"))⟩]

/-- The snapshot `parse_processes` builds from `demoEntries`. -/
def demoProcs : List Process :=
  [⟨1, strChars ("a "), ⟨1, strChars ("a"), ProcessState.Running⟩⟩]

/-- The snapshot of spec scenario 6 (states are irrelevant to the filter). -/
def demoSnapshot : List Process :=
  [⟨10, strChars ("ssh"), ⟨10, strChars ("ssh"), ProcessState.Running⟩⟩,
   ⟨101, strChars ("bash"), ⟨101, strChars ("bash"), ProcessState.Sleeping⟩⟩,
   ⟨22, strChars ("nginx: worker"), ⟨22, strChars ("nginx"), ProcessState.Running⟩⟩]

/-! ### Helper lemmas -/

/-- Facts about a decimal digit byte `48 ≤ b ≤ 57` viewed as a character. -/
theorem digitByte_facts (b : Nat) (h1 : 48 ≤ b) (h2 : b ≤ 57) :
    (Char.ofNat b).toNat = b ∧ (Char.ofNat b).isDigit = true ∧
      rustIsWhitespace (Char.ofNat b) = false ∧ Char.ofNat b ≠ '+' := by
  interval_cases b <;> refine ⟨?_, ?_, ?_, ?_⟩ <;> decide

/-- Every byte produced by `digitsOfNatAux` is a decimal digit byte. -/
theorem digitsOfNatAux_bounds :
    ∀ fuel n, n < fuel → ∀ b ∈ digitsOfNatAux fuel n, 48 ≤ b ∧ b ≤ 57 := by
  intro fuel
  induction fuel with
  | zero => intro n hn; omega
  | succ fuel ih =>
    intro n hn b hb
    rw [digitsOfNatAux] at hb
    by_cases h10 : n < 10
    · rw [if_pos h10] at hb
      simp only [List.mem_singleton] at hb
      omega
    · rw [if_neg h10] at hb
      rcases List.mem_append.mp hb with hl | hr
      · have hdiv : n / 10 < n := Nat.div_lt_self (by omega) (by omega)
        exact ih (n / 10) (by omega) b hl
      · simp only [List.mem_singleton] at hr
        have : n % 10 < 10 := Nat.mod_lt _ (by omega)
        omega

/-- Every byte of the decimal representation is a digit byte. -/
theorem digitsOfNat_bounds (n : Nat) :
    ∀ b ∈ digitsOfNat n, 48 ≤ b ∧ b ≤ 57 :=
  digitsOfNatAux_bounds (n + 1) n (Nat.lt_succ_self n)

/-- The decimal representation of a number is never empty. -/
theorem digitsOfNat_ne_nil (n : Nat) : digitsOfNat n ≠ [] := by
  rw [digitsOfNat, digitsOfNatAux]
  by_cases h10 : n < 10
  · simp [h10]
  · simp [h10]

/-- Folding the decimal digits of `n` with the base-10 accumulator step
recovers `n` (with a general accumulator). -/
theorem foldl_digitsOfNatAux :
    ∀ fuel n acc, n < fuel →
      ((digitsOfNatAux fuel n).map Char.ofNat).foldl
          (fun a c => 10 * a + (c.toNat - 48)) acc =
        acc * 10 ^ (digitsOfNatAux fuel n).length + n := by
  intro fuel
  induction fuel with
  | zero => intro n acc hn; omega
  | succ fuel ih =>
    intro n acc hn
    rw [digitsOfNatAux]
    by_cases h10 : n < 10
    · rw [if_pos h10]
      have hd := digitByte_facts (48 + n) (by omega) (by omega)
      simp [List.foldl, hd.1]
      omega
    · rw [if_neg h10]
      have hdiv : n / 10 < n := Nat.div_lt_self (by omega) (by omega)
      have hmod : n % 10 < 10 := Nat.mod_lt _ (by omega)
      have hd := digitByte_facts (48 + n % 10) (by omega) (by omega)
      rw [List.map_append, List.foldl_append, ih (n / 10) acc (by omega)]
      simp [List.foldl, hd.1, List.length_append]
      rw [Nat.pow_succ]
      have := Nat.div_add_mod n 10
      ring_nf
      omega

/-- `u64` parsing inverts decimal printing (below `2^64`). -/
theorem parseU64_natToChars (n : Nat) (hn : n < 18446744073709551616) :
    parseU64 (natToChars n) = some n := by
  have hne := digitsOfNat_ne_nil n
  have hb := digitsOfNat_bounds n
  rw [natToChars]
  cases hd : digitsOfNat n with
  | nil => exact absurd hd hne
  | cons b bs =>
    have hbf : 48 ≤ b ∧ b ≤ 57 := hb b (hd ▸ List.mem_cons_self ..)
    have hplus : ¬(Char.ofNat b = '+') := (digitByte_facts b hbf.1 hbf.2).2.2.2
    rw [parseU64.eq_def]
    simp only [List.map_cons, if_neg hplus]
    have hall : ((b :: bs).map Char.ofNat).all Char.isDigit = true := by
      rw [List.all_eq_true]
      intro c hc
      rcases List.mem_map.mp hc with ⟨x, hx, rfl⟩
      have hxf := hb x (hd ▸ hx)
      exact (digitByte_facts x hxf.1 hxf.2).2.1
    have hfold :
        ((b :: bs).map Char.ofNat).foldl (fun a c => 10 * a + (c.toNat - 48)) 0 = n := by
      have := foldl_digitsOfNatAux (n + 1) n 0 (Nat.lt_succ_self n)
      rw [digitsOfNat] at hd
      rw [hd] at this
      simpa using this
    have hdigb := (digitByte_facts b hbf.1 hbf.2).2.1
    have hdig : ∀ a ∈ bs, (Char.ofNat a).isDigit = true := by
      intro a ha
      have haf := hb a (hd ▸ List.mem_cons_of_mem _ ha)
      exact (digitByte_facts a haf.1 haf.2).2.1
    have hfold' : List.foldl (fun a c => 10 * a + (c.toNat - 48))
        ((Char.ofNat b).toNat - 48) (List.map Char.ofNat bs) = n := by
      simpa using hfold
    simp [hdigb, hdig, hfold', hn]
    exact hdig

/-- `read_until` consumes exactly up to and including the first occurrence of
the delimiter. -/
theorem readUntil_append (d : Nat) :
    ∀ xs ys, d ∉ xs → readUntil d (xs ++ d :: ys) = (xs ++ [d], ys)
  | [], ys, _ => by simp [readUntil]
  | x :: xs, ys, h => by
    have hx : ¬(x = d) := fun e => h (e ▸ List.mem_cons_self ..)
    have ih := readUntil_append d xs ys (fun m => h (List.mem_cons_of_mem _ m))
    simp [readUntil, hx, ih]

/-- The fuel-driven UTF-8 loop on a pure-ASCII byte list succeeds whenever
the fuel covers the length, and is byte-wise `Char.ofNat`. -/
theorem decodeUtf8Aux_ascii :
    ∀ (bs : List Nat) (fuel : Nat), bs.length ≤ fuel → (∀ b ∈ bs, b ≤ 127) →
      decodeUtf8Aux fuel bs = some (bs.map Char.ofNat)
  | [], fuel, _, _ => by cases fuel <;> rfl
  | b :: bs, 0, hlen, _ => by simp at hlen
  | b :: bs, fuel + 1, hlen, h => by
    have hb : b ≤ 127 := h b (List.mem_cons_self ..)
    have ih := decodeUtf8Aux_ascii bs fuel (by simpa using hlen)
      (fun x hx => h x (List.mem_cons_of_mem _ hx))
    rw [decodeUtf8Aux]
    simp only [utf8Step, if_pos hb, ih, List.map_cons]

/-- Strict UTF-8 decoding of a pure-ASCII byte list always succeeds and is
byte-wise `Char.ofNat`. -/
theorem decodeUtf8_ascii (bs : List Nat) (h : ∀ b ∈ bs, b ≤ 127) :
    decodeUtf8 bs = some (bs.map Char.ofNat) :=
  decodeUtf8Aux_ascii bs bs.length (Nat.le_refl _) h

/-- `dropWhile` is the identity when the predicate fails everywhere. -/
theorem dropWhile_all_neg {α : Type} (p : α → Bool) :
    ∀ l : List α, (∀ a ∈ l, p a = false) → l.dropWhile p = l
  | [], _ => rfl
  | a :: l, h => by
    simp [List.dropWhile_cons, h a (List.mem_cons_self ..)]

/-- Trimming a non-whitespace string with one trailing space removes exactly
that space. -/
theorem rustTrim_append_space (cs : List Char)
    (h : ∀ c ∈ cs, rustIsWhitespace c = false) :
    rustTrim (cs ++ [' ']) = cs := by
  cases cs with
  | nil => decide
  | cons c cs' =>
    have hc : rustIsWhitespace c = false := h c (List.mem_cons_self ..)
    have hsp : rustIsWhitespace ' ' = true := by decide
    have hstep1 : (c :: (cs' ++ [' '])).dropWhile rustIsWhitespace
        = c :: (cs' ++ [' ']) := by
      rw [List.dropWhile_cons, hc]
      simp
    have hrev : (c :: (cs' ++ [' '])).reverse = ' ' :: (cs'.reverse ++ [c]) := by
      simp
    have hstep2 : (' ' :: (cs'.reverse ++ [c])).dropWhile rustIsWhitespace
        = (cs'.reverse ++ [c]).dropWhile rustIsWhitespace := by
      rw [List.dropWhile_cons, hsp]
      simp
    have hstep3 : (cs'.reverse ++ [c]).dropWhile rustIsWhitespace
        = cs'.reverse ++ [c] := by
      apply dropWhile_all_neg
      intro a ha
      rcases List.mem_append.mp ha with hl | hr
      · exact h a (List.mem_cons_of_mem _ (List.mem_reverse.mp hl))
      · simp only [List.mem_singleton] at hr
        exact hr ▸ hc
    rw [rustTrim, List.cons_append, hstep1, hrev, hstep2, hstep3]
    simp

/-- Slicing `(<tcomm>)` from index 1 to one before the end recovers the
tcomm bytes (for ASCII tcomm bytes, so both cut points are char
boundaries). -/
theorem strSlice_paren (tc : List Nat) (h : ∀ b ∈ tc, b ≤ 127) :
    strSlice (40 :: tc ++ [41]) 1 ((40 :: tc ++ [41]).length - 1) = some tc := by
  have hsub : (40 :: tc ++ [41]).length - 1 = tc.length + 1 := by simp
  have hb1 : isCharBoundary (40 :: tc ++ [41]) 1 = true := by
    cases tc with
    | nil => decide
    | cons b tc' =>
      have hble : b ≤ 127 := h b (List.mem_cons_self ..)
      simp [isCharBoundary, isCont]
      omega
  have hdrop : (40 :: tc ++ [41]).drop (tc.length + 1) = [41] := by
    have h1 : 40 :: tc ++ [41] = (40 :: tc) ++ [41] := by simp
    rw [h1]
    exact List.drop_left' (by simp)
  have hb2 : isCharBoundary (40 :: tc ++ [41]) (tc.length + 1) = true := by
    rw [isCharBoundary.eq_def, hdrop]
    simp [isCont]
  have c2 : tc.length + 1 ≤ (40 :: tc ++ [41]).length := by simp
  have htake : ((40 :: tc ++ [41]).drop 1).take (tc.length + 1 - 1) = tc := by
    simp only [List.drop_succ_cons, List.drop_zero, Nat.add_sub_cancel]
    exact List.take_left' rfl
  simp [strSlice, hsub, c2, hb1, hb2, htake]
  exact ⟨hb1, hb2⟩

/-- `parse_stats` on any synthetic well-formed blob whose tcomm bytes are
ASCII and contain no `)`: the pid and tcomm are recovered and the result is
exactly the state-table lookup on the state byte. -/
theorem parseStats_mkStatBlob (pid : Nat) (tc : List Nat) (st : Nat)
    (rest : List Nat) (hpid : pid < 18446744073709551616)
    (htc : ∀ b ∈ tc, b ≤ 127 ∧ b ≠ 41) :
    parseStats (mkStatBlob pid tc st rest) =
      (stateOfByte st).map (fun s => ⟨pid, tc.map Char.ofNat, s⟩) := by
  have hdig := digitsOfNat_bounds pid
  have h32 : 32 ∉ digitsOfNat pid := fun m => by have := hdig _ m; omega
  have hr1 : readUntil 32 (mkStatBlob pid tc st rest) =
      (digitsOfNat pid ++ [32], 40 :: (tc ++ 41 :: 32 :: st :: 32 :: rest)) := by
    rw [mkStatBlob]
    exact readUntil_append 32 _ _ h32
  have hdec1 : decodeUtf8 (digitsOfNat pid ++ [32]) =
      some (natToChars pid ++ [' ']) := by
    rw [decodeUtf8_ascii _ (by
      intro b hb
      rcases List.mem_append.mp hb with hl | hr
      · have := hdig b hl; omega
      · simp only [List.mem_singleton] at hr; omega)]
    rw [List.map_append, natToChars]
    rfl
  have htrim : rustTrim (natToChars pid ++ [' ']) = natToChars pid := by
    apply rustTrim_append_space
    intro c hc
    rcases List.mem_map.mp hc with ⟨b, hb, rfl⟩
    have hbf := hdig b hb
    exact (digitByte_facts b hbf.1 hbf.2).2.2.1
  have hparse : parseU64 (natToChars pid) = some pid := parseU64_natToChars pid hpid
  have h41 : 41 ∉ (40 : Nat) :: tc := by
    intro hm
    rcases List.mem_cons.mp hm with he | hm'
    · omega
    · exact (htc 41 hm').2 rfl
  have hr2 : readUntil 41 (40 :: (tc ++ 41 :: 32 :: st :: 32 :: rest)) =
      (40 :: tc ++ [41], 32 :: st :: 32 :: rest) := by
    have hshape : 40 :: (tc ++ 41 :: 32 :: st :: 32 :: rest) =
        (40 :: tc) ++ 41 :: (32 :: st :: 32 :: rest) := by simp
    rw [hshape]
    have := readUntil_append 41 (40 :: tc) (32 :: st :: 32 :: rest) h41
    simpa using this
  have htc127 : ∀ b ∈ (40 : Nat) :: tc ++ [41], b ≤ 127 := by
    intro b hb
    rcases List.mem_cons.mp hb with he | hm
    · omega
    · rcases List.mem_append.mp hm with hl | hr
      · exact (htc b hl).1
      · simp only [List.mem_singleton] at hr; omega
  have hdec2 : decodeUtf8 (40 :: tc ++ [41]) =
      some ((40 :: tc ++ [41]).map Char.ofNat) := decodeUtf8_ascii _ htc127
  have hslice : strSlice (40 :: tc ++ [41]) 1 ((40 :: tc ++ [41]).length - 1) =
      some tc := strSlice_paren tc (fun b hb => (htc b hb).1)
  have hdec3 : decodeUtf8 tc = some (tc.map Char.ofNat) :=
    decodeUtf8_ascii _ (fun b hb => (htc b hb).1)
  have hr3 : readUntil 32 (32 :: st :: 32 :: rest) = ([32], st :: 32 :: rest) := by
    simp [readUntil]
  simp only [parseStats, hr1, hdec1, htrim, hparse, hr2, hdec2, hslice, hdec3, hr3]
  cases stateOfByte st <;> simp

/-- Unfolding of `parseProcesses` on a numeric entry whose files all read and
parse: the scan of the remaining entries is prefixed with the new record. -/
theorem parseProcesses_cons_eq (e : ProcEntry) (es : List ProcEntry)
    (pid : Nat) (cb : List Nat) (cl : List Char) (sb : List Nat)
    (st : ProcessStats) (hn : parseU64 e.name = some pid)
    (hc : e.cmdline = some cb) (hcl : parseCmdline cb = some cl)
    (hs : e.statFile = some sb) (hst : parseStats sb = some st) :
    parseProcesses (e :: es) =
      (parseProcesses es).map (fun rest => (⟨pid, cl, st⟩ : Process) :: rest) := by
  simp only [parseProcesses, hn, hc, hcl, hs, hst]
  cases parseProcesses es <;> rfl

/-! ### Claim theorems -/

/-- C1: the spec requires tcomm to be bounded by the first `(` and the
last `)`, so that `"4242 (weird )name ) R 1 ..."` parses to
tcomm `"weird )name "` and state Running.  The code instead scans to the
first `)` and then panics on the state byte: the parse fails entirely on
this blob (a code bug, acknowledged as such by the spec's design notes). -/
theorem c1_first_paren_scan_is_bug :
    parseStats weirdBlob = none ∧
      parseStats weirdBlob ≠
        some ⟨4242, strChars ("weird )name "), ProcessState.Running⟩ := by
  constructor <;> decide

/-- C2: the claim says a failing per-PID step is skipped and the scan
continues.  The code panics instead: with the unparsable entry `"9 (x) Q"`
present the whole scan fails, whereas the same listing without it yields a
snapshot (so the failure is not confined to the offending PID). -/
theorem c2_per_pid_failure_aborts_scan :
    parseProcesses [entryQ, entryTen] = none ∧
      parseProcesses [entryTen] =
        some [⟨10, strChars ("y "), ⟨10, strChars ("y"), ProcessState.Running⟩⟩] := by
  constructor <;> decide

/-- C3: membership in the filtered view is exactly membership in the
snapshot together with the needle occurring as a raw substring of the
decimal pid string, the cmdline, or the tcomm (an empty needle matches
every process, since `[]` is an infix of anything). -/
theorem c3_filter_membership (ps : List Process) (w : List Char) (p : Process) :
    p ∈ filterProcesses ps w ↔
      p ∈ ps ∧ (w <:+: natToChars p.pid ∨ w <:+: p.cmdline ∨ w <:+: p.stats.tcomm) := by
  rw [filterProcesses]
  by_cases hw : w.isEmpty
  · have hnil : w = [] := List.isEmpty_iff.mp hw
    subst hnil
    simp
  · rw [if_neg hw]
    simp [Process.containsStr, ProcessStats.containsStr, strContains, or_assoc]

/-- C5: the spec requires lossy decoding of tcomm (replacement characters)
so that parsing never fails on encoding alone.  The code decodes strictly
and unwraps: on a blob whose tcomm byte is `0xFF` the parse fails (a code
bug, acknowledged as such by the spec's design notes). -/
theorem c5_strict_utf8_decoding_panics : parseStats invalidUtf8Blob = none := by
  decide

/-- C6: the state-byte table maps `R`, `S`, `D`, `T`, `Z`, `I` to Running,
Sleeping, UninterruptibleSleeping, Stopped, Zombie, Idle, any other byte is
a parse failure, and on a well-formed blob (ASCII tcomm without `)`) the
parser's result is exactly the table lookup; in particular
`"1234 (bash) S 1 1234 ..."` parses to tcomm `"bash"`, state Sleeping. -/
theorem c6_state_byte_table :
    (∀ pid tc st rest, pid < 18446744073709551616 →
        (∀ b ∈ tc, b ≤ 127 ∧ b ≠ 41) →
        parseStats (mkStatBlob pid tc st rest) =
          (stateOfByte st).map (fun s => ⟨pid, tc.map Char.ofNat, s⟩)) ∧
    stateOfByte 82 = some ProcessState.Running ∧
    stateOfByte 83 = some ProcessState.Sleeping ∧
    stateOfByte 68 = some ProcessState.UninterruptibleSleeping ∧
    stateOfByte 84 = some ProcessState.Stopped ∧
    stateOfByte 90 = some ProcessState.Zombie ∧
    stateOfByte 73 = some ProcessState.Idle ∧
    (∀ b, b ≠ 82 → b ≠ 83 → b ≠ 68 → b ≠ 84 → b ≠ 90 → b ≠ 73 →
        stateOfByte b = none) ∧
    parseStats (strBytes ("1234 (bash) S 1 1234 ...")) =
      some ⟨1234, strChars ("bash"), ProcessState.Sleeping⟩ := by
  refine ⟨parseStats_mkStatBlob, rfl, rfl, rfl, rfl, rfl, rfl, ?_, by decide⟩
  intro b h1 h2 h3 h4 h5 h6
  simp [stateOfByte, h1, h2, h3, h4, h5, h6]

/-- Witness for C6: the universal part applied at the concrete blob
`7 (kworker/0:0-events) I 2 ...`, and the state-failure part at byte `Q`. -/
theorem c6_state_byte_table_witness :
    parseStats (mkStatBlob 7 (strBytes ("kworker/0:0-events")) 73 (strBytes ("2 ..."))) =
        some ⟨7, strChars ("kworker/0:0-events"), ProcessState.Idle⟩ ∧
      stateOfByte 81 = none := by
  constructor
  · have h := c6_state_byte_table.1 7 (strBytes ("kworker/0:0-events")) 73
      (strBytes ("2 ...")) (by decide) (by decide)
    rw [h]
    decide
  · exact c6_state_byte_table.2.2.2.2.2.2.2.1 81 (by decide) (by decide)
      (by decide) (by decide) (by decide) (by decide)

/-- C7: the empty needle returns the snapshot unchanged, filtering is
idempotent, the view is a (stable, order-preserving) sublist of the
snapshot, and on the concrete three-process snapshot the needle `"10"`
selects pids 10 and 101 in that order. -/
theorem c7_filter_algebra :
    (∀ ps, filterProcesses ps [] = ps) ∧
    (∀ ps w, filterProcesses (filterProcesses ps w) w = filterProcesses ps w) ∧
    (∀ ps w, (filterProcesses ps w).Sublist ps) ∧
    (filterProcesses demoSnapshot (strChars ("10"))).map (fun p => p.pid) =
      [10, 101] := by
  refine ⟨fun ps => rfl, ?_, ?_, by decide⟩
  · intro ps w
    by_cases hw : w.isEmpty
    · simp [filterProcesses, hw]
    · simp [filterProcesses, hw, List.filter_filter, Bool.and_self]
  · intro ps w
    by_cases hw : w.isEmpty
    · simp [filterProcesses, hw]
    · simp only [filterProcesses, hw, Bool.false_eq_true, if_false]
      exact List.filter_sublist ps

/-- C8: the display strings of the six state variants, verbatim. -/
theorem c8_display_strings :
    displayState ProcessState.Running = "Running" ∧
    displayState ProcessState.Sleeping = "Sleeping" ∧
    displayState ProcessState.UninterruptibleSleeping = "Uninterruptable Sleep" ∧
    displayState ProcessState.Stopped = "Stopped" ∧
    displayState ProcessState.Zombie = "Zombie" ∧
    displayState ProcessState.Idle = "Idle" :=
  ⟨rfl, rfl, rfl, rfl, rfl, rfl⟩

/-- C9: when the snapshot builder succeeds, its records are exactly one per
directory entry whose name parses as `u64`, in order, each pid being the
parsed name; non-numeric names are silently skipped. -/
theorem c9_one_record_per_numeric_entry :
    ∀ (es : List ProcEntry) (ps : List Process), parseProcesses es = some ps →
      ps.map (fun p => p.pid) = es.filterMap (fun e => parseU64 e.name) := by
  intro es
  induction es with
  | nil =>
    intro ps h
    simp only [parseProcesses] at h
    injection h with h
    subst h
    simp
  | cons e es ih =>
    intro ps h
    simp only [parseProcesses] at h
    cases hn : parseU64 e.name with
    | none =>
      simp only [hn] at h
      have hfm : (e :: es).filterMap (fun x => parseU64 x.name) =
          es.filterMap (fun x => parseU64 x.name) :=
        List.filterMap_cons_none (by simpa using hn)
      rw [hfm]
      exact ih ps h
    | some pid =>
      simp only [hn] at h
      cases hc : e.cmdline with
      | none => rw [hc] at h; simp at h
      | some cb =>
        simp only [hc] at h
        cases hcc : parseCmdline cb with
        | none => rw [hcc] at h; simp at h
        | some cl =>
          simp only [hcc] at h
          cases hs : e.statFile with
          | none => rw [hs] at h; simp at h
          | some sb =>
            simp only [hs] at h
            cases hps : parseStats sb with
            | none => rw [hps] at h; simp at h
            | some stt =>
              simp only [hps] at h
              cases hr : parseProcesses es with
              | none => rw [hr] at h; simp at h
              | some rest =>
                simp only [hr] at h
                injection h with h
                subst h
                simp [List.filterMap_cons, hn, ih rest hr]

/-- Witness for C9: the builder on a listing with the non-numeric entry
`self` and the numeric entry `1`. -/
theorem c9_one_record_per_numeric_entry_witness :
    demoProcs.map (fun p => p.pid) =
      demoEntries.filterMap (fun e => parseU64 e.name) :=
  c9_one_record_per_numeric_entry demoEntries demoProcs (by decide)

/-- C10: the empty-needle fast path (returning the list unfiltered) agrees
with the general filter path at the empty needle, because `contains` is
true of every process for the empty needle. -/
theorem c10_empty_needle_fast_path :
    (∀ ps, filterProcesses ps [] = filterGeneral ps []) ∧
    (∀ p : Process, p.containsStr [] = true) := by
  have hc : ∀ p : Process, p.containsStr [] = true := by
    intro p
    simp [Process.containsStr, ProcessStats.containsStr, strContains]
  refine ⟨?_, hc⟩
  intro ps
  rw [filterGeneral]
  have hself : List.filter (fun p => p.containsStr []) ps = ps :=
    List.filter_eq_self.mpr (fun a _ => hc a)
  rw [hself]
  rfl

/-- C4 counterexample: the cmdline bytes `"python3\x00-m\x00http.server\x00"`
do not yield `"python3 -m http.server"` — the code does not trim the
trailing space, so the stored field is `"python3 -m http.server "`. -/
theorem c4_trailing_space_kept :
    parseCmdline (strBytes ("python3\x00-m\x00http.server\x00")) ≠
        some (strChars ("python3 -m http.server")) ∧
      parseCmdline (strBytes ("python3\x00-m\x00http.server\x00")) =
        some (strChars ("python3 -m http.server ")) := by
  constructor <;> decide

/-- C4 (amended): the stored cmdline equals the decoded file bytes with
every NUL replaced by a single space and no trimming; the example yields
`"python3 -m http.server "` (trailing space kept) and an empty file yields
the empty string. -/
theorem c4_cmdline_nul_to_space_no_trim :
    (∀ (e : ProcEntry) (es : List ProcEntry) (pid : Nat) (cb : List Nat)
        (cs : List Char) (sb : List Nat) (st : ProcessStats) (ps : List Process),
        parseU64 e.name = some pid → e.cmdline = some cb →
        decodeUtf8 cb = some cs → e.statFile = some sb →
        parseStats sb = some st → parseProcesses (e :: es) = some ps →
        ps.head? = some ⟨pid, replaceNul cs, st⟩) ∧
    parseCmdline (strBytes ("python3\x00-m\x00http.server\x00")) =
      some (strChars ("python3 -m http.server ")) ∧
    parseCmdline [] = some [] := by
  refine ⟨?_, by decide, rfl⟩
  intro e es pid cb cs sb st ps hn hc hdec hs hst hp
  have hcl : parseCmdline cb = some (replaceNul cs) := by
    simp only [parseCmdline, hdec, replaceNul]
  rw [parseProcesses_cons_eq e es pid cb (replaceNul cs) sb st hn hc hcl hs hst]
    at hp
  rcases Option.map_eq_some'.mp hp with ⟨rest, _, hps⟩
  rw [← hps]
  rfl

/-- Witness for C4's amended theorem: applied at the numeric entry `1` of
`demoEntries` with the cmdline file `"a\x00"`. -/
theorem c4_cmdline_nul_to_space_no_trim_witness :
    demoProcs.head? =
      some ⟨1, replaceNul (strChars ("a\x00")),
        ⟨1, strChars ("a"), ProcessState.Running⟩⟩ :=
  c4_cmdline_nul_to_space_no_trim.1
    ⟨strChars ("1"), some (strBytes ("a\x00")), some (strBytes ("1 (a) R 0"))⟩
    [] 1 (strBytes ("a\x00")) (strChars ("a\x00")) (strBytes ("1 (a) R 0"))
    ⟨1, strChars ("a"), ProcessState.Running⟩ demoProcs
    (by decide) rfl (by decide) rfl (by decide) (by decide)

end LinuxVisualizer
